import Mathlib

/-!
Shallow embedding of the Samba VFS module `vfs_rdirect.c` (project
`samba_vfs_rdirect`).  The repository carries two variants of the module:

* a passthrough variant whose `rdirect_pread` delegates the actual read to
  the next VFS layer (`SMB_VFS_NEXT_PREAD`) after aligning the destination
  buffer to the 512-byte block size, and
* a standalone variant whose `rdirect_pread` resolves the file descriptor to
  a path via `/proc/self/fd/N`, reopens it with `O_DIRECT`, rounds the
  transfer length further down to a multiple of 512, reads, shifts the bytes
  back, and writes a zero terminator one past the received byte count.

Machine pointers (`uintptr_t`) and sizes (`size_t`) are modelled as natural
numbers with arithmetic reduced modulo `2 ^ 64` exactly where the C code can
wrap.  Byte memory is a total function from addresses to byte values; the
underlying read calls (`SMB_VFS_NEXT_PREAD`, `read(2)`) are oracles supplied
as parameters, returning a signed count together with the memory after the
call.
-/

namespace VfsRdirect

/-- Fixed direct-I/O block size of the module (512 bytes). -/
def blockSize : Nat := 512

/-- Width of `uintptr_t` / `size_t`: arithmetic wraps modulo `2 ^ 64`. -/
def ptrW : Nat := 2 ^ 64

/-- Byte memory: a total map from addresses to byte values. -/
def Mem : Type := Nat → Nat

/-- The aligned buffer address computed by the C code:
`buffer = (data + 511) & ~511` in `uintptr_t` arithmetic. -/
def alignedAddress (data : Nat) : Nat :=
  ((data + (blockSize - 1)) % ptrW) &&& (ptrW - blockSize)

/-- `rndup = (size_t)(buffer - (uintptr_t)data)`: the number of bytes the
address was rounded up, computed with wrapping subtraction. -/
def roundingOffset (data : Nat) : Nat :=
  (alignedAddress data + ptrW - data) % ptrW

/-- Passthrough variant transfer length: `n = n - rndup` in `size_t`. -/
def alignedLengthPT (data n : Nat) : Nat :=
  (n + ptrW - roundingOffset data) % ptrW

/-- Standalone variant transfer length: the passthrough length additionally
rounded down to a multiple of 512 via `n = n & ~((size_t)511)`. -/
def alignedLengthSA (data n : Nat) : Nat :=
  alignedLengthPT data n &&& (ptrW - blockSize)

/-- The C cast `(size_t)count` of the signed byte count. -/
def uCast (c : Int) : Nat := (c % (ptrW : Int)).toNat

/-- Address of `((uint8_t *)data)[count]`: pointer arithmetic with a signed
index, wrapping modulo `2 ^ 64`. -/
def termAddr (data : Nat) (count : Int) : Nat :=
  (((data : Int) + count) % (ptrW : Int)).toNat

/-- Store one byte at an address. -/
def writeMem (m : Mem) (a v : Nat) : Mem :=
  fun x => if x = a then v else m x

/-- The shift-back loop
`for (i = 0; i < bound; ++i) data[i] = buffer[i];`
executed sequentially from index 0, each iteration reading from the current
memory state (the source and destination ranges overlap). -/
def copyLoop (dst src : Nat) : Nat → Mem → Mem
  | 0, m => m
  | k + 1, m =>
    let m2 := copyLoop dst src k m
    writeMem m2 (dst + k) (m2 (src + k))

/-- Result of the passthrough `rdirect_pread`: the returned count, the memory
afterwards, and the request issued to the next layer (`none` when no
underlying read was performed). -/
structure PreadResult where
  count : Int
  mem : Mem
  req : Option (Nat × Nat × Int)

/-- Passthrough-variant `rdirect_pread`.  `next` is the oracle for
`SMB_VFS_NEXT_PREAD`, taking the destination address, length, offset and the
memory, and returning the signed byte count and the memory after the call. -/
def rdirect_pread (next : Nat → Nat → Int → Mem → Int × Mem)
    (mem : Mem) (data n : Nat) (offset : Int) : PreadResult :=
  if n < blockSize then
    ⟨-1, mem, none⟩
  else
    let buffer := alignedAddress data
    let rndup := roundingOffset data
    let n1 := alignedLengthPT data n
    let res := next buffer n1 offset mem
    let count := res.1
    let mem1 := res.2
    let mem2 :=
      if 0 < count then
        if rndup ≠ 0 then copyLoop data buffer (uCast count) mem1 else mem1
      else mem1
    ⟨count, mem2, some (buffer, n1, offset)⟩

/-- Environment of the standalone variant: result of
`readlink("/proc/self/fd/N", ...)`, result of `open(path, O_RDONLY|O_DIRECT)`,
and the oracle for `read(fd, buffer, n)` (address, length, memory in; signed
count and memory out). -/
structure SAEnv where
  resolveLen : Int
  openFd : Int
  read : Nat → Nat → Mem → Int × Mem

/-- Result of the standalone `rdirect_pread`: returned count, memory
afterwards, whether `readlink` was invoked, whether `open` was invoked, and
the request issued to `read` (`none` when no read was performed). -/
structure SAResult where
  count : Int
  mem : Mem
  resolved : Bool
  opened : Bool
  readReq : Option (Nat × Nat)

/-- Standalone-variant `rdirect_pread`: reject `offset > 0` with 0 (end of
file), reject `n < 512` with -1, resolve the descriptor, reopen with
`O_DIRECT`, align, read, shift back whenever `rndup != 0` with loop bound
`(size_t)count`, and write the zero terminator at `data[count]`. -/
def rdirect_pread_sa (env : SAEnv) (mem : Mem) (data n : Nat)
    (offset : Int) : SAResult :=
  if 0 < offset then
    ⟨0, mem, false, false, none⟩
  else if n < blockSize then
    ⟨-1, mem, false, false, none⟩
  else if env.resolveLen ≤ 0 then
    ⟨-1, mem, true, false, none⟩
  else if env.openFd ≤ 0 then
    ⟨-1, mem, true, true, none⟩
  else
    let buffer := alignedAddress data
    let rndup := roundingOffset data
    let n2 := alignedLengthSA data n
    let res := env.read buffer n2 mem
    let count := res.1
    let mem1 := res.2
    let mem2 :=
      if rndup ≠ 0 then copyLoop data buffer (uCast count) mem1 else mem1
    let mem3 := writeMem mem2 (termAddr data count) 0
    ⟨count, mem3, true, true, some (buffer, n2)⟩

/-- Linux `O_DIRECT` flag bit (x86-64): `0x4000 = 2 ^ 14`. -/
def O_DIRECT : Nat := 16384

/-- Linux `O_DIRECTORY` flag bit (x86-64): `0x10000`. -/
def O_DIRECTORY : Nat := 65536

/-- `rdirect_openat`: add `O_DIRECT` when the `O_DIRECTORY` bit is absent and
`mode == 0`, then delegate `(flags, mode)` to the next layer. -/
def rdirect_openat (flags mode : Nat) : Nat × Nat :=
  if flags &&& O_DIRECTORY = 0 ∧ mode = 0 then
    (flags ||| O_DIRECT, mode)
  else
    (flags, mode)

/-- Completion state stored in `struct rdirect_pread_state` /
the tevent request: either done with a byte count or failed with the value
passed to `tevent_req_error`. -/
inductive ReqStatus where
  | done (bytes : Int) : ReqStatus
  | err (ec : Int) : ReqStatus

/-- The request object returned by `rdirect_pread_send`: its completion
status, the memory after the synchronous work, and whether completion was
marked (`tevent_req_done` / `tevent_req_error`) before `tevent_req_post`
returned the request to the caller. -/
structure TeventReq where
  status : ReqStatus
  mem : Mem
  completedBeforePost : Bool

/-- Truncation of the `ssize_t` return value through the C local
`int ret` (32-bit two's complement). -/
def toInt32 (x : Int) : Int := (x + 2 ^ 31) % 2 ^ 32 - 2 ^ 31

/-- `rdirect_pread_send`: synchronously run `rdirect_pread` with the same
arguments, store the result (or the return value as the error code via
`tevent_req_error(req, ret)`), mark completion, and post the request. -/
def rdirect_pread_send (next : Nat → Nat → Int → Mem → Int × Mem)
    (mem : Mem) (data n : Nat) (offset : Int) : TeventReq :=
  let r := rdirect_pread next mem data n offset
  let ret := toInt32 r.count
  if ret < 0 then ⟨.err ret, r.mem, true⟩ else ⟨.done ret, r.mem, true⟩

/-- `rdirect_pread_recv`: on a unix error return -1 and surface the stored
error code in `vfs_aio_state->error` (the `Option Int` component), otherwise
return the stored byte count. -/
def rdirect_pread_recv (req : TeventReq) : Int × Option Int :=
  match req.status with
  | .err e => (-1, some e)
  | .done b => (b, none)

/-- Clearing the low nine bits of a value below `2 ^ 64` with the mask
`~511` rounds it down to a multiple of `2 ^ 9`. -/
theorem land_mask_eq (x : Nat) (hx : x < 2 ^ 64) :
    x &&& (2 ^ 64 - 2 ^ 9) = x / 2 ^ 9 * 2 ^ 9 := by
  have hmask : (2 : Nat) ^ 64 - 2 ^ 9 = (2 ^ 55 - 1) <<< 9 := by decide
  have hdiv : x / 2 ^ 9 * 2 ^ 9 = (x >>> 9) <<< 9 := by
    rw [Nat.shiftLeft_eq, Nat.shiftRight_eq_div_pow]
  rw [hmask, hdiv]
  apply Nat.eq_of_testBit_eq
  intro i
  rw [Nat.testBit_and, Nat.testBit_shiftLeft, Nat.testBit_shiftLeft,
    Nat.testBit_shiftRight, Nat.testBit_two_pow_sub_one]
  by_cases h9 : 9 ≤ i
  · have h99 : 9 + (i - 9) = i := by omega
    by_cases h64 : i < 64
    · have h55 : i - 9 < 55 := by omega
      simp [ge_iff_le, h9, h99, h55]
    · have hxf : x.testBit i = false :=
        Nat.testBit_lt_two_pow
          (lt_of_lt_of_le hx (Nat.pow_le_pow_right (by omega) (by omega)))
      have h55 : ¬ i - 9 < 55 := by omega
      simp [ge_iff_le, h9, h99, h55, hxf]
  · simp [ge_iff_le, h9]

/-- On a non-wrapping address, `alignedAddress` is the round-up of the
address to the next multiple of 512. -/
theorem alignedAddress_eq (data : Nat) (h : data + 512 ≤ 2 ^ 64) :
    alignedAddress data = (data + 511) - (data + 511) % 512 := by
  have h1 : data + 511 < 2 ^ 64 := by omega
  unfold alignedAddress blockSize ptrW
  rw [Nat.mod_eq_of_lt h1,
    show (2 : Nat) ^ 64 - 512 = 2 ^ 64 - 2 ^ 9 by norm_num,
    land_mask_eq _ h1, show (2 : Nat) ^ 9 = 512 by norm_num]
  omega

/-- Basic facts about the alignment computation on a non-wrapping address:
bounds of the aligned address, its divisibility, and the value and bound of
the rounding offset. -/
theorem align_spec (data : Nat) (h : data + 512 ≤ 2 ^ 64) :
    data ≤ alignedAddress data ∧ alignedAddress data ≤ data + 511 ∧
      alignedAddress data % 512 = 0 ∧
      roundingOffset data = alignedAddress data - data ∧
      roundingOffset data ≤ 511 := by
  have hd := Nat.div_add_mod (data + 511) 512
  have hm : (data + 511) % 512 < 512 := Nat.mod_lt _ (by norm_num)
  have he := alignedAddress_eq data h
  have hle : data ≤ alignedAddress data := by omega
  have hub : alignedAddress data ≤ data + 511 := by omega
  have hmod : alignedAddress data % 512 = 0 := by
    have ha : alignedAddress data = 512 * ((data + 511) / 512) := by omega
    rw [ha]; exact Nat.mul_mod_right _ _
  have hro : roundingOffset data = alignedAddress data - data := by
    have hlt : alignedAddress data - data < 2 ^ 64 := by omega
    show (alignedAddress data + 2 ^ 64 - data) % 2 ^ 64 = _
    rw [show alignedAddress data + 2 ^ 64 - data =
        (alignedAddress data - data) + 2 ^ 64 by omega,
      Nat.add_mod_right, Nat.mod_eq_of_lt hlt]
  exact ⟨hle, hub, hmod, hro, by omega⟩

/-- The passthrough transfer length on a valid buffer is the requested
length minus the rounding offset, without wrap. -/
theorem alignedLengthPT_eq (data n : Nat) (hn : 512 ≤ n)
    (h : data + n < 2 ^ 64) :
    alignedLengthPT data n = n - roundingOffset data := by
  have h5 : data + 512 ≤ 2 ^ 64 := by omega
  obtain ⟨h1, h2, h3, h4, h5'⟩ := align_spec data h5
  have hlt : n - roundingOffset data < 2 ^ 64 := by omega
  show (n + 2 ^ 64 - roundingOffset data) % 2 ^ 64 = n - roundingOffset data
  rw [show n + 2 ^ 64 - roundingOffset data =
      (n - roundingOffset data) + 2 ^ 64 by omega,
    Nat.add_mod_right, Nat.mod_eq_of_lt hlt]

/-- The standalone transfer length is the passthrough length rounded down
to a multiple of 512. -/
theorem alignedLengthSA_eq (data n : Nat) (hn : 512 ≤ n)
    (h : data + n < 2 ^ 64) :
    alignedLengthSA data n =
      (n - roundingOffset data) - (n - roundingOffset data) % 512 := by
  have hpt := alignedLengthPT_eq data n hn h
  have hlt : alignedLengthPT data n < 2 ^ 64 := by omega
  show alignedLengthPT data n &&& (2 ^ 64 - 512) = _
  rw [show (2 : Nat) ^ 64 - 512 = 2 ^ 64 - 2 ^ 9 by norm_num,
    land_mask_eq _ hlt, show (2 : Nat) ^ 9 = 512 by norm_num, hpt]
  omega

/-- The standalone transfer length never exceeds the requested length. -/
theorem alignedLengthSA_le (data n : Nat) (hn : 512 ≤ n)
    (h : data + n < 2 ^ 64) : alignedLengthSA data n ≤ n := by
  rw [alignedLengthSA_eq data n hn h]
  omega

/-- Addresses the copy loop never writes keep their previous contents. -/
theorem copyLoop_untouched (dst src k : Nat) (m : Mem) (a : Nat)
    (h : ∀ i, i < k → a ≠ dst + i) : copyLoop dst src k m a = m a := by
  induction k with
  | zero => rfl
  | succ k ih =>
    show writeMem (copyLoop dst src k m) (dst + k)
        ((copyLoop dst src k m) (src + k)) a = m a
    unfold writeMem
    rw [if_neg (h k (Nat.lt_succ_self k))]
    exact ih fun i hi => h i (Nat.lt_succ_of_lt hi)

/-- The overlapping forward copy is content-neutral when the source lies
strictly above the destination: after the loop, byte `i` of the destination
holds the original byte `i` of the source. -/
theorem copyLoop_read (dst src : Nat) (hds : dst < src) (k : Nat) (m : Mem)
    (i : Nat) (hi : i < k) : copyLoop dst src k m (dst + i) = m (src + i) := by
  induction k with
  | zero => exact absurd hi (Nat.not_lt_zero i)
  | succ k ih =>
    show writeMem (copyLoop dst src k m) (dst + k)
        ((copyLoop dst src k m) (src + k)) (dst + i) = m (src + i)
    unfold writeMem
    by_cases hik : i = k
    · subst hik
      rw [if_pos rfl]
      exact copyLoop_untouched dst src i m (src + i) fun j hj => by omega
    · rw [if_neg (by omega)]
      exact ih (by omega)

/-- The `(size_t)count` cast is the identity on representable nonnegative
counts. -/
theorem uCast_eq (c : Int) (h0 : 0 ≤ c) (h1 : c < (2 : Int) ^ 64) :
    uCast c = c.toNat := by
  unfold uCast
  have hcast : ((ptrW : Nat) : Int) = (2 : Int) ^ 64 := by norm_num [ptrW]
  rw [hcast, Int.emod_eq_of_lt h0 h1]

/-- The `(size_t)count` cast sends -1 to `2 ^ 64 - 1`. -/
theorem uCast_neg_one : uCast (-1) = 2 ^ 64 - 1 := by decide

/-- For a nonnegative in-range count, the terminator address is `data + count`. -/
theorem termAddr_eq (data : Nat) (c : Int) (h0 : 0 ≤ c)
    (h1 : (data : Int) + c < (2 : Int) ^ 64) :
    termAddr data c = data + c.toNat := by
  unfold termAddr
  have hcast : ((ptrW : Nat) : Int) = (2 : Int) ^ 64 := by norm_num [ptrW]
  rw [hcast, Int.emod_eq_of_lt (by omega) h1]
  omega

/-- For `count = -1` the terminator address is one byte below the
destination address. -/
theorem termAddr_neg_one (data : Nat) (h0 : 1 ≤ data) (h1 : data < 2 ^ 64) :
    termAddr data (-1) = data - 1 := by
  unfold termAddr
  have hcast : ((ptrW : Nat) : Int) = (2 : Int) ^ 64 := by norm_num [ptrW]
  rw [hcast, Int.emod_eq_of_lt (by omega) (by omega)]
  omega

/-- Unfolding of the passthrough read on the rejection branch. -/
theorem pread_eq_small (next : Nat → Nat → Int → Mem → Int × Mem)
    (mem : Mem) (data n : Nat) (offset : Int) (h : n < blockSize) :
    rdirect_pread next mem data n offset = ⟨-1, mem, none⟩ := by
  unfold rdirect_pread
  rw [if_pos h]

/-- Unfolding of the passthrough read once the length check passes. -/
theorem pread_eq_run (next : Nat → Nat → Int → Mem → Int × Mem)
    (mem : Mem) (data n : Nat) (offset : Int) (h : ¬ n < blockSize) :
    rdirect_pread next mem data n offset =
      ⟨(next (alignedAddress data) (alignedLengthPT data n) offset mem).1,
       (if 0 < (next (alignedAddress data) (alignedLengthPT data n) offset mem).1 then
          if roundingOffset data ≠ 0 then
            copyLoop data (alignedAddress data)
              (uCast (next (alignedAddress data) (alignedLengthPT data n) offset mem).1)
              (next (alignedAddress data) (alignedLengthPT data n) offset mem).2
          else (next (alignedAddress data) (alignedLengthPT data n) offset mem).2
        else (next (alignedAddress data) (alignedLengthPT data n) offset mem).2),
       some (alignedAddress data, alignedLengthPT data n, offset)⟩ := by
  unfold rdirect_pread
  rw [if_neg h]

/-- Unfolding of the standalone read on the positive-offset branch. -/
theorem pread_sa_eq_offset (env : SAEnv) (mem : Mem) (data n : Nat)
    (offset : Int) (h : 0 < offset) :
    rdirect_pread_sa env mem data n offset = ⟨0, mem, false, false, none⟩ := by
  unfold rdirect_pread_sa
  rw [if_pos h]

/-- Unfolding of the standalone read on the short-buffer branch. -/
theorem pread_sa_eq_small (env : SAEnv) (mem : Mem) (data n : Nat)
    (offset : Int) (h1 : ¬ 0 < offset) (h2 : n < blockSize) :
    rdirect_pread_sa env mem data n offset = ⟨-1, mem, false, false, none⟩ := by
  unfold rdirect_pread_sa
  rw [if_neg h1, if_pos h2]

/-- Unfolding of the standalone read once the offset, length, resolve and
open checks all pass. -/
theorem pread_sa_eq_run (env : SAEnv) (mem : Mem) (data n : Nat)
    (offset : Int) (h1 : ¬ 0 < offset) (h2 : ¬ n < blockSize)
    (h3 : ¬ env.resolveLen ≤ 0) (h4 : ¬ env.openFd ≤ 0) :
    rdirect_pread_sa env mem data n offset =
      ⟨(env.read (alignedAddress data) (alignedLengthSA data n) mem).1,
       writeMem
         (if roundingOffset data ≠ 0 then
            copyLoop data (alignedAddress data)
              (uCast (env.read (alignedAddress data) (alignedLengthSA data n) mem).1)
              (env.read (alignedAddress data) (alignedLengthSA data n) mem).2
          else (env.read (alignedAddress data) (alignedLengthSA data n) mem).2)
         (termAddr data (env.read (alignedAddress data) (alignedLengthSA data n) mem).1) 0,
       true, true, some (alignedAddress data, alignedLengthSA data n)⟩ := by
  unfold rdirect_pread_sa
  rw [if_neg h1, if_neg h2, if_neg h3, if_neg h4]

/-- Memory after a standalone read on the full path, phrased through the
value of the underlying read. -/
theorem pread_sa_run_mem (env : SAEnv) (mem : Mem) (data n : Nat)
    (offset : Int) (h1 : ¬ 0 < offset) (h2 : ¬ n < blockSize)
    (h3 : ¬ env.resolveLen ≤ 0) (h4 : ¬ env.openFd ≤ 0) (c : Int) (m1 : Mem)
    (hread : env.read (alignedAddress data) (alignedLengthSA data n) mem = (c, m1)) :
    (rdirect_pread_sa env mem data n offset).mem =
      writeMem
        (if roundingOffset data ≠ 0 then
          copyLoop data (alignedAddress data) (uCast c) m1
         else m1)
        (termAddr data c) 0 := by
  rw [pread_sa_eq_run env mem data n offset h1 h2 h3 h4, hread]

/-- Count returned by a standalone read on the full path, phrased through
the value of the underlying read. -/
theorem pread_sa_run_count (env : SAEnv) (mem : Mem) (data n : Nat)
    (offset : Int) (h1 : ¬ 0 < offset) (h2 : ¬ n < blockSize)
    (h3 : ¬ env.resolveLen ≤ 0) (h4 : ¬ env.openFd ≤ 0) (c : Int) (m1 : Mem)
    (hread : env.read (alignedAddress data) (alignedLengthSA data n) mem = (c, m1)) :
    (rdirect_pread_sa env mem data n offset).count = c := by
  rw [pread_sa_eq_run env mem data n offset h1 h2 h3 h4, hread]

/-- Identity of the `int` truncation on in-range values. -/
theorem toInt32_eq (x : Int) (hlo : -(2 : Int) ^ 31 ≤ x)
    (hhi : x < (2 : Int) ^ 31) : toInt32 x = x := by
  unfold toInt32
  omega

/-- Unfolding of `rdirect_pread_send` in terms of the synchronous read. -/
theorem send_eq (next : Nat → Nat → Int → Mem → Int × Mem) (mem : Mem)
    (data n : Nat) (off : Int) :
    rdirect_pread_send next mem data n off =
      if toInt32 (rdirect_pread next mem data n off).count < 0 then
        ⟨.err (toInt32 (rdirect_pread next mem data n off).count),
         (rdirect_pread next mem data n off).mem, true⟩
      else
        ⟨.done (toInt32 (rdirect_pread next mem data n off).count),
         (rdirect_pread next mem data n off).mem, true⟩ := rfl

/-- Concrete byte memory used in witnesses: the address modulo 251. -/
def mem0 : Mem := fun a => a % 251

/-- Oracle whose read succeeds with one byte and leaves memory unchanged. -/
def next0 : Nat → Nat → Int → Mem → Int × Mem := fun _ _ _ m => (1, m)

/-- Oracle whose read fails with -1 and leaves memory unchanged. -/
def nextFail : Nat → Nat → Int → Mem → Int × Mem := fun _ _ _ m => (-1, m)

/-- Oracle that places the byte 42 at the requested address and reports one
byte read. -/
def nextW : Nat → Nat → Int → Mem → Int × Mem :=
  fun a _ _ m => (1, writeMem m a 42)

/-- Standalone environment whose resolve and open succeed and whose read
returns 0 bytes. -/
def envOk : SAEnv := ⟨1, 1, fun _ _ m => (0, m)⟩

/-- Standalone environment whose read fails with -1. -/
def envFail : SAEnv := ⟨1, 1, fun _ _ m => (-1, m)⟩

/-- Standalone environment that places the byte 42 at the requested address
and reports one byte read. -/
def envWr : SAEnv := ⟨1, 1, fun a _ m => (1, writeMem m a 42)⟩

/-- Standalone environment whose read reports 512 bytes, leaving memory
unchanged. -/
def env512 : SAEnv := ⟨1, 1, fun _ _ m => (512, m)⟩

/-- Oracle whose read reports 2 ^ 31 bytes, leaving memory unchanged. -/
def nextBig : Nat → Nat → Int → Mem → Int × Mem := fun _ _ _ m => (2 ^ 31, m)

/-- Claim C2: for every destination address of a valid buffer and every
length of at least one block, the aligned address is a multiple of 512 and
at least the original address, the rounding offset equals the aligned
address minus the address and lies in [0, 511], the aligned length equals
the length minus the rounding offset, the standalone variant additionally
rounds it down to a multiple of 512, and both pread variants hand exactly
these values to the underlying read. -/
theorem claim_C2 (data n : Nat) (hn : blockSize ≤ n) (hW : data + n < ptrW) :
    alignedAddress data % blockSize = 0 ∧
    data ≤ alignedAddress data ∧
    roundingOffset data = alignedAddress data - data ∧
    roundingOffset data ≤ blockSize - 1 ∧
    alignedLengthPT data n = n - roundingOffset data ∧
    alignedLengthSA data n =
      (n - roundingOffset data) - (n - roundingOffset data) % blockSize ∧
    (∀ (next : Nat → Nat → Int → Mem → Int × Mem) (mem : Mem) (off : Int),
      (rdirect_pread next mem data n off).req =
        some (alignedAddress data, alignedLengthPT data n, off)) ∧
    (∀ (env : SAEnv) (mem : Mem) (off : Int),
      ¬ 0 < off → 0 < env.resolveLen → 0 < env.openFd →
      (rdirect_pread_sa env mem data n off).readReq =
        some (alignedAddress data, alignedLengthSA data n)) := by
  have hn' : 512 ≤ n := hn
  have hW' : data + n < 2 ^ 64 := hW
  have h512 : data + 512 ≤ 2 ^ 64 := by omega
  obtain ⟨h1, h2, h3, h4, h5⟩ := align_spec data h512
  refine ⟨h3, h1, h4, h5, alignedLengthPT_eq data n hn' hW',
    alignedLengthSA_eq data n hn' hW', ?_, ?_⟩
  · intro next mem off
    rw [pread_eq_run next mem data n off (Nat.not_lt.mpr hn)]
  · intro env mem off hoff hres hopen
    rw [pread_sa_eq_run env mem data n off hoff (Nat.not_lt.mpr hn)
      (by omega) (by omega)]

/-- Claim C2 witness at address 1 and length 512. -/
theorem claim_C2_witness :
    alignedAddress 1 % blockSize = 0 ∧
    1 ≤ alignedAddress 1 ∧
    roundingOffset 1 = alignedAddress 1 - 1 ∧
    roundingOffset 1 ≤ blockSize - 1 ∧
    alignedLengthPT 1 512 = 512 - roundingOffset 1 ∧
    alignedLengthSA 1 512 =
      (512 - roundingOffset 1) - (512 - roundingOffset 1) % blockSize :=
  have h := claim_C2 1 512 (by decide) (by decide)
  ⟨h.1, h.2.1, h.2.2.1, h.2.2.2.1, h.2.2.2.2.1, h.2.2.2.2.2.1⟩

/-- Claim C3 counterexample: in standalone mode a read of length 100, far
below one block, at offset 1 returns 0, not a negative InsufficientBuffer
result, because the offset check precedes the length check. -/
theorem claim_C3_counterexample :
    (rdirect_pread_sa envOk mem0 0 100 1).count = 0 ∧
    ¬ (rdirect_pread_sa envOk mem0 0 100 1).count < 0 := by
  rw [pread_sa_eq_offset envOk mem0 0 100 1 (by decide)]
  exact ⟨rfl, by decide⟩

/-- Claim C3 (amended): the minimum-length rejection returns -1 with no
underlying read and no buffer modification for every offset in the
passthrough variant and for every offset at most 0 in the standalone
variant; in standalone mode an offset greater than 0 is answered with 0
before the length check. -/
theorem claim_C3_amended (next : Nat → Nat → Int → Mem → Int × Mem)
    (env : SAEnv) (mem : Mem) (data n : Nat) (off : Int)
    (h : n < blockSize) :
    rdirect_pread next mem data n off = ⟨-1, mem, none⟩ ∧
    (off ≤ 0 →
      rdirect_pread_sa env mem data n off = ⟨-1, mem, false, false, none⟩) ∧
    (0 < off →
      rdirect_pread_sa env mem data n off = ⟨0, mem, false, false, none⟩) :=
  ⟨pread_eq_small next mem data n off h,
   fun hoff => pread_sa_eq_small env mem data n off (by omega) h,
   fun hoff => pread_sa_eq_offset env mem data n off hoff⟩

/-- Claim C3 witness at length 100 and offset 0. -/
theorem claim_C3_witness :
    rdirect_pread next0 mem0 3 100 0 = ⟨-1, mem0, none⟩ ∧
    rdirect_pread_sa envOk mem0 3 100 0 = ⟨-1, mem0, false, false, none⟩ :=
  have h := claim_C3_amended next0 envOk mem0 3 100 0 (by decide)
  ⟨h.1, h.2.1 (by decide)⟩

/-- Claim C4: in standalone mode every read with a positive offset returns
0 immediately, leaves the memory unchanged and performs no path resolution,
no open and no read, whatever the environment, buffer and length. -/
theorem claim_C4 (env : SAEnv) (mem : Mem) (data n : Nat) (off : Int)
    (h : 0 < off) :
    rdirect_pread_sa env mem data n off = ⟨0, mem, false, false, none⟩ :=
  pread_sa_eq_offset env mem data n off h

/-- Claim C4 witness at offset 1. -/
theorem claim_C4_witness :
    rdirect_pread_sa envOk mem0 7 9 1 = ⟨0, mem0, false, false, none⟩ :=
  claim_C4 envOk mem0 7 9 1 (by decide)

/-- Claim C5 counterexample: for flags 0 and the nonzero mode 420 the claim
predicts O_DIRECT is added, but the code leaves the flags unchanged; for
flags 0 and mode exactly 0 the claim predicts unchanged delegation, but the
code adds O_DIRECT. -/
theorem claim_C5_counterexample :
    (rdirect_openat 0 420).1 = 0 ∧
    Nat.testBit (rdirect_openat 0 420).1 14 = false ∧
    (rdirect_openat 0 0).1 = O_DIRECT ∧
    Nat.testBit (rdirect_openat 0 0).1 14 = true := by decide

/-- Claim C5 (amended): the open operation adds O_DIRECT exactly when the
O_DIRECTORY bit is absent and the mode value is exactly zero, and otherwise
delegates the flags unchanged; in all cases the mode and every flag bit
other than the O_DIRECT bit are passed through unmodified. -/
theorem claim_C5_amended (flags mode : Nat) :
    (flags &&& O_DIRECTORY = 0 ∧ mode = 0 →
      rdirect_openat flags mode = (flags ||| O_DIRECT, mode)) ∧
    (¬ (flags &&& O_DIRECTORY = 0 ∧ mode = 0) →
      rdirect_openat flags mode = (flags, mode)) ∧
    (rdirect_openat flags mode).2 = mode ∧
    (∀ i, i ≠ 14 →
      Nat.testBit (rdirect_openat flags mode).1 i = Nat.testBit flags i) := by
  unfold rdirect_openat
  by_cases h : flags &&& O_DIRECTORY = 0 ∧ mode = 0
  · rw [if_pos h]
    refine ⟨fun _ => rfl, fun hc => absurd h hc, rfl, ?_⟩
    intro i hi
    rw [Nat.testBit_or]
    have hbit : Nat.testBit O_DIRECT i = false := by
      show Nat.testBit (2 ^ 14) i = false
      rw [Nat.testBit_two_pow]
      exact decide_eq_false fun hc => hi hc.symm
    rw [hbit, Bool.or_false]
  · rw [if_neg h]
    exact ⟨fun hc => absurd hc h, fun _ => rfl, rfl, fun i _ => rfl⟩

/-- Claim C5 witness: mode 0 gains O_DIRECT, nonzero mode passes through. -/
theorem claim_C5_witness :
    rdirect_openat 0 0 = ((0 : Nat) ||| O_DIRECT, 0) ∧
    rdirect_openat 3 5 = (3, 5) :=
  ⟨(claim_C5_amended 0 0).1 (by decide), (claim_C5_amended 3 5).2.1 (by decide)⟩

/-- Claim C6: a request of length at least one block whose rounding offset
pushes the post-rounding length below one block still reaches the underlying
read with the reduced length in both variants; concretely, for an address
congruent to 3 modulo 512 and requested length 600 at offset 0, the aligned
address is 509 bytes into the buffer, the passthrough length is 91, the
standalone length is rounded down to 0, and the standalone call returns a
zero-byte result despite the caller requesting 600. -/
theorem claim_C6 (data : Nat) (hd : data % 512 = 3) (hW : data + 600 < ptrW) :
    (∀ (next : Nat → Nat → Int → Mem → Int × Mem) (mem : Mem) (d m : Nat)
        (off : Int), blockSize ≤ m → alignedLengthPT d m < blockSize →
      (rdirect_pread next mem d m off).req =
        some (alignedAddress d, alignedLengthPT d m, off)) ∧
    (∀ (env : SAEnv) (mem : Mem) (d m : Nat) (off : Int),
        ¬ 0 < off → blockSize ≤ m → alignedLengthSA d m < blockSize →
        0 < env.resolveLen → 0 < env.openFd →
      (rdirect_pread_sa env mem d m off).readReq =
        some (alignedAddress d, alignedLengthSA d m)) ∧
    alignedAddress data = data + 509 ∧
    roundingOffset data = 509 ∧
    alignedLengthPT data 600 = 91 ∧
    alignedLengthSA data 600 = 0 ∧
    (∀ (env : SAEnv) (mem : Mem), 0 < env.resolveLen → 0 < env.openFd →
      (∀ a m, (env.read a 0 m).1 = 0) →
      (rdirect_pread_sa env mem data 600 0).count = 0) := by
  have hW' : data + 600 < 2 ^ 64 := hW
  have h512 : data + 512 ≤ 2 ^ 64 := by omega
  obtain ⟨h1, h2, h3, h4, h5⟩ := align_spec data h512
  have hmod : (data + 511) % 512 = 2 := by omega
  have hA : alignedAddress data = data + 509 := by
    rw [alignedAddress_eq data h512]
    omega
  have hro : roundingOffset data = 509 := by omega
  have hpt : alignedLengthPT data 600 = 91 := by
    rw [alignedLengthPT_eq data 600 (by omega) (by omega), hro]
  have hsa : alignedLengthSA data 600 = 0 := by
    rw [alignedLengthSA_eq data 600 (by omega) (by omega), hro]
  refine ⟨?_, ?_, hA, hro, hpt, hsa, ?_⟩
  · intro next mem d m off hm _
    rw [pread_eq_run next mem d m off (Nat.not_lt.mpr hm)]
  · intro env mem d m off hoff hm _ hres hopen
    rw [pread_sa_eq_run env mem d m off hoff (Nat.not_lt.mpr hm)
      (by omega) (by omega)]
  · intro env mem hres hopen hzero
    rw [pread_sa_eq_run env mem data 600 0 (by decide) (by decide)
      (by omega) (by omega)]
    show (env.read (alignedAddress data) (alignedLengthSA data 600) mem).1 = 0
    rw [hsa]
    exact hzero _ _

/-- Claim C6 witness at address 3. -/
theorem claim_C6_witness :
    alignedAddress 3 = 3 + 509 ∧ roundingOffset 3 = 509 ∧
    alignedLengthPT 3 600 = 91 ∧ alignedLengthSA 3 600 = 0 ∧
    (rdirect_pread_sa envOk mem0 3 600 0).count = 0 :=
  have h := claim_C6 3 (by decide) (by decide)
  ⟨h.2.2.1, h.2.2.2.1, h.2.2.2.2.1, h.2.2.2.2.2.1,
   h.2.2.2.2.2.2 envOk mem0 (by decide) (by decide) fun _ _ => rfl⟩

/-- Claim C7 counterexample: a synchronous read returning 2 ^ 31 bytes is
truncated by the int temporary of the send path to -2 ^ 31, so the request
is stored as an error and receive returns -1 instead of the byte count the
synchronous read returned: the asynchronous surface is not observationally
equivalent for counts outside the int range. -/
theorem claim_C7_counterexample :
    (rdirect_pread nextBig mem0 0 1024 0).count = 2 ^ 31 ∧
    rdirect_pread_recv (rdirect_pread_send nextBig mem0 0 1024 0) =
      (-1, some (-(2 ^ 31) : Int)) ∧
    ((-1 : Int), (some (-(2 ^ 31) : Int))) ≠
      (((2 : Int) ^ 31), (none : Option Int)) := by
  refine ⟨rfl, rfl, by decide⟩

/-- Claim C7 (amended): the asynchronous surface is observationally the
synchronous read whenever the byte count fits the C int temporary of the
send path: submission runs rdirect_pread synchronously on the same arguments
and memory, marks the request completed before posting it back, and a
subsequent receive returns the byte count the synchronous read returned, or
-1 carrying the stored value when it failed. -/
theorem claim_C7_amended (next : Nat → Nat → Int → Mem → Int × Mem) (mem : Mem)
    (data n : Nat) (off : Int)
    (hlo : -(2 : Int) ^ 31 ≤ (rdirect_pread next mem data n off).count)
    (hhi : (rdirect_pread next mem data n off).count < (2 : Int) ^ 31) :
    (rdirect_pread_send next mem data n off).completedBeforePost = true ∧
    (rdirect_pread_send next mem data n off).mem =
      (rdirect_pread next mem data n off).mem ∧
    (0 ≤ (rdirect_pread next mem data n off).count →
      rdirect_pread_recv (rdirect_pread_send next mem data n off) =
        ((rdirect_pread next mem data n off).count, none)) ∧
    ((rdirect_pread next mem data n off).count < 0 →
      rdirect_pread_recv (rdirect_pread_send next mem data n off) =
        (-1, some (rdirect_pread next mem data n off).count)) := by
  have htr := toInt32_eq _ hlo hhi
  rw [send_eq, htr]
  by_cases hneg : (rdirect_pread next mem data n off).count < 0
  · rw [if_pos hneg]
    exact ⟨rfl, rfl, fun h0 => absurd hneg (by omega), fun _ => rfl⟩
  · rw [if_neg hneg]
    exact ⟨rfl, rfl, fun _ => rfl, fun hc => absurd hc hneg⟩

/-- Claim C7 witness: a successful one-byte read surfaces its count through
submit and receive. -/
theorem claim_C7_witness :
    rdirect_pread_recv (rdirect_pread_send next0 mem0 0 1024 0) =
      ((rdirect_pread next0 mem0 0 1024 0).count, none) :=
  (claim_C7_amended next0 mem0 0 1024 0 (by decide) (by decide)).2.2.1 (by decide)

/-- Claim C8 (code bug): when the underlying read fails, rdirect_pread
returns -1 and rdirect_pread_send stores that return value itself as the
tevent error code, so receive surfaces -1 in the caller's error state,
which differs from every positive OS error code the failed low-level read
could have reported through errno. -/
theorem claim_C8_bug (e : Int) (he : 0 < e) :
    (rdirect_pread nextFail mem0 0 1024 0).count = -1 ∧
    rdirect_pread_recv (rdirect_pread_send nextFail mem0 0 1024 0) =
      (-1, some (-1)) ∧
    some (-1 : Int) ≠ some e := by
  refine ⟨rfl, rfl, ?_⟩
  intro hc
  have : (-1 : Int) = e := Option.some.inj hc
  omega

/-- Claim C8 witness at the OS error code 5 (EIO). -/
theorem claim_C8_witness :
    (rdirect_pread nextFail mem0 0 1024 0).count = -1 ∧
    rdirect_pread_recv (rdirect_pread_send nextFail mem0 0 1024 0) =
      (-1, some (-1)) ∧
    some (-1 : Int) ≠ some 5 :=
  claim_C8_bug 5 (by decide)

/-- Claim C9 counterexample: a standalone read of a 1024-byte request at an
address one byte past a block boundary receives 512 bytes, exactly the
aligned length, yet the terminator lands at byte index 512 of the
destination, strictly inside the caller's requested 1024-byte capacity and
not beyond it. -/
theorem claim_C9_counterexample :
    (rdirect_pread_sa env512 mem0 1 1024 0).count = 512 ∧
    alignedLengthSA 1 1024 = 512 ∧
    termAddr 1 512 = 513 ∧
    513 < 1 + 1024 ∧
    (rdirect_pread_sa env512 mem0 1 1024 0).mem 513 = 0 := by
  refine ⟨rfl, by decide, by decide, by decide, ?_⟩
  rw [pread_sa_run_mem env512 mem0 1 1024 0 (by decide) (by decide)
    (by decide) (by decide) 512 mem0 rfl]
  unfold writeMem
  rw [if_pos (by decide : (513 : Nat) = termAddr 1 512)]

/-- Claim C9 (amended): on every standalone read that reaches the underlying
read and receives a nonnegative count of at most the aligned length, byte
index count of the destination is set to 0 immediately after the last
received byte; that terminator consumes caller capacity at or beyond the
requested length exactly when the count equals the aligned length and the
aligned length equals the requested length. -/
theorem claim_C9_amended (env : SAEnv) (mem : Mem) (data n : Nat) (off : Int)
    (hoff : off ≤ 0) (hn : blockSize ≤ n) (hW : data + n < ptrW)
    (hres : 0 < env.resolveLen) (hopen : 0 < env.openFd) (c : Int)
    (hc : (env.read (alignedAddress data) (alignedLengthSA data n) mem).1 = c)
    (h0 : 0 ≤ c) (hcle : c ≤ (alignedLengthSA data n : Int)) :
    (rdirect_pread_sa env mem data n off).mem (data + c.toNat) = 0 ∧
    termAddr data c = data + c.toNat ∧
    (c = (alignedLengthSA data n : Int) →
      (n ≤ c.toNat ↔ alignedLengthSA data n = n)) := by
  have hn' : 512 ≤ n := hn
  have hW' : data + n < 2 ^ 64 := hW
  have hle := alignedLengthSA_le data n hn' hW'
  have hterm : termAddr data c = data + c.toNat :=
    termAddr_eq data c h0 (by omega)
  refine ⟨?_, hterm, ?_⟩
  · rw [pread_sa_eq_run env mem data n off (by omega) (Nat.not_lt.mpr hn)
      (by omega) (by omega)]
    show writeMem _
      (termAddr data (env.read (alignedAddress data) (alignedLengthSA data n) mem).1)
      0 (data + c.toNat) = 0
    rw [hc, hterm]
    unfold writeMem
    rw [if_pos rfl]
  · intro hceq
    omega

/-- Claim C9 witness: an aligned 512-byte request fully served places the
terminator at index 512, one byte past the requested capacity. -/
theorem claim_C9_witness :
    (rdirect_pread_sa env512 mem0 0 512 0).mem (0 + (512 : Int).toNat) = 0 ∧
    termAddr 0 512 = 0 + (512 : Int).toNat :=
  have h := claim_C9_amended env512 mem0 0 512 0 (by decide) (by decide)
    (by decide) (by decide) (by decide) 512 rfl (by decide) (by decide)
  ⟨h.1, h.2.1⟩

/-- Claim C10: in standalone mode every read reaching the low-level read
ends with the terminator write at the signed index count and a shift loop
guarded only by a nonzero rounding offset with the unsigned cast of count as
bound, neither step being guarded by a successful positive count; in
particular a zero-byte result zeroes destination[0], a failed read with zero
rounding offset writes 0 one byte below the destination, and the unsigned
cast of -1 is the full-width value 2 ^ 64 - 1. -/
theorem claim_C10 (env : SAEnv) (mem : Mem) (data n : Nat) (off : Int)
    (hoff : off ≤ 0) (hn : blockSize ≤ n)
    (hres : 0 < env.resolveLen) (hopen : 0 < env.openFd) :
    (rdirect_pread_sa env mem data n off).mem =
      writeMem
        (if roundingOffset data ≠ 0 then
          copyLoop data (alignedAddress data)
            (uCast (env.read (alignedAddress data) (alignedLengthSA data n) mem).1)
            (env.read (alignedAddress data) (alignedLengthSA data n) mem).2
         else (env.read (alignedAddress data) (alignedLengthSA data n) mem).2)
        (termAddr data
          (env.read (alignedAddress data) (alignedLengthSA data n) mem).1) 0 ∧
    ((env.read (alignedAddress data) (alignedLengthSA data n) mem).1 = 0 →
      data < ptrW →
      (rdirect_pread_sa env mem data n off).mem data = 0) ∧
    ((env.read (alignedAddress data) (alignedLengthSA data n) mem).1 = -1 →
      roundingOffset data = 0 → 1 ≤ data → data < ptrW →
      (rdirect_pread_sa env mem data n off).mem (data - 1) = 0) ∧
    uCast (-1) = ptrW - 1 := by
  have hrun := pread_sa_eq_run env mem data n off (by omega)
    (Nat.not_lt.mpr hn) (by omega) (by omega)
  refine ⟨by rw [hrun], ?_, ?_, uCast_neg_one⟩
  · intro hc hdW
    have hdW' : data < 2 ^ 64 := hdW
    have ht0 : termAddr data 0 = data := by
      rw [termAddr_eq data 0 (le_refl 0) (by omega)]
      simp
    rw [hrun]
    show writeMem _
      (termAddr data (env.read (alignedAddress data) (alignedLengthSA data n) mem).1)
      0 data = 0
    rw [hc, ht0]
    unfold writeMem
    rw [if_pos rfl]
  · intro hc hr0 hd1 hdW
    have hdW' : data < 2 ^ 64 := hdW
    have ht1 : termAddr data (-1) = data - 1 := termAddr_neg_one data hd1 hdW'
    rw [hrun]
    show writeMem _
      (termAddr data (env.read (alignedAddress data) (alignedLengthSA data n) mem).1)
      0 (data - 1) = 0
    rw [hc, ht1]
    unfold writeMem
    rw [if_pos rfl]

/-- Claim C10 witness: a zero-byte standalone read zeroes destination[0],
and the unsigned cast of -1 is the full-width value. -/
theorem claim_C10_witness :
    (rdirect_pread_sa envOk mem0 5 512 0).mem 5 = 0 ∧ uCast (-1) = ptrW - 1 :=
  have h := claim_C10 envOk mem0 5 512 0 (by decide) (by decide) (by decide)
    (by decide)
  ⟨h.2.1 rfl (by decide), h.2.2.2⟩

/-- Claim C1 counterexample: in the standalone variant a failed underlying
read (count -1) with nonzero rounding offset still runs the shift loop, so
byte 0 of the destination buffer changes from 1 to 10 even though the read
did not return a positive count: the shift is not performed only under
success with a positive count. -/
theorem claim_C1_counterexample :
    (rdirect_pread_sa envFail mem0 1 1024 0).count = -1 ∧
    (rdirect_pread_sa envFail mem0 1 1024 0).mem 1 = 10 ∧
    mem0 1 = 1 := by
  refine ⟨rfl, ?_, rfl⟩
  rw [pread_sa_run_mem envFail mem0 1 1024 0 (by decide) (by decide)
    (by decide) (by decide) (-1) mem0 rfl]
  rw [if_pos (show roundingOffset 1 ≠ 0 by decide), uCast_neg_one,
    termAddr_neg_one 1 (by decide) (by decide)]
  unfold writeMem
  rw [if_neg (by decide : ¬ (1 : Nat) = 1 - 1)]
  have h1 := copyLoop_read 1 512 (by decide) (2 ^ 64 - 1) mem0 0 (by decide)
  have hA : alignedAddress 1 = 512 := by decide
  rw [hA]
  calc copyLoop 1 512 (2 ^ 64 - 1) mem0 1
      = copyLoop 1 512 (2 ^ 64 - 1) mem0 (1 + 0) := rfl
    _ = mem0 (512 + 0) := h1
    _ = 10 := by decide

/-- Claim C1 (amended): whenever the underlying read returns a positive
in-range count and the rounding offset is nonzero, the first count bytes at
the destination afterwards equal the count bytes the read placed at the
aligned address, in both variants; in the passthrough variant the shift is
performed only under those conditions (otherwise the memory is exactly the
post-read memory), while in the standalone variant the shift loop is
guarded only by the nonzero rounding offset. -/
theorem claim_C1_amended (next : Nat → Nat → Int → Mem → Int × Mem)
    (env : SAEnv) (mem : Mem) (data n : Nat) (off : Int)
    (hn : blockSize ≤ n) (hW : data + n < ptrW) :
    (∀ i, roundingOffset data ≠ 0 →
      0 < (next (alignedAddress data) (alignedLengthPT data n) off mem).1 →
      (next (alignedAddress data) (alignedLengthPT data n) off mem).1 ≤
        (alignedLengthPT data n : Int) →
      i < (next (alignedAddress data) (alignedLengthPT data n) off mem).1.toNat →
      (rdirect_pread next mem data n off).mem (data + i) =
        (next (alignedAddress data) (alignedLengthPT data n) off mem).2
          (alignedAddress data + i)) ∧
    (¬ 0 < (next (alignedAddress data) (alignedLengthPT data n) off mem).1 ∨
        roundingOffset data = 0 →
      (rdirect_pread next mem data n off).mem =
        (next (alignedAddress data) (alignedLengthPT data n) off mem).2) ∧
    (∀ i, off ≤ 0 → 0 < env.resolveLen → 0 < env.openFd →
      roundingOffset data ≠ 0 →
      0 < (env.read (alignedAddress data) (alignedLengthSA data n) mem).1 →
      (env.read (alignedAddress data) (alignedLengthSA data n) mem).1 ≤
        (alignedLengthSA data n : Int) →
      i < (env.read (alignedAddress data) (alignedLengthSA data n) mem).1.toNat →
      (rdirect_pread_sa env mem data n off).mem (data + i) =
        (env.read (alignedAddress data) (alignedLengthSA data n) mem).2
          (alignedAddress data + i)) := by
  have hn' : 512 ≤ n := hn
  have hW' : data + n < 2 ^ 64 := hW
  have h512 : data + 512 ≤ 2 ^ 64 := by omega
  obtain ⟨ha1, ha2, ha3, ha4, ha5⟩ := align_spec data h512
  have hptle : alignedLengthPT data n ≤ n := by
    rw [alignedLengthPT_eq data n hn' hW']
    omega
  have hsale := alignedLengthSA_le data n hn' hW'
  refine ⟨?_, ?_, ?_⟩
  · intro i hrnd hpos hcle hi
    have hdlt : data < alignedAddress data := by omega
    rw [pread_eq_run next mem data n off (Nat.not_lt.mpr hn)]
    show (if 0 < (next (alignedAddress data) (alignedLengthPT data n) off mem).1 then
        if roundingOffset data ≠ 0 then
          copyLoop data (alignedAddress data)
            (uCast (next (alignedAddress data) (alignedLengthPT data n) off mem).1)
            (next (alignedAddress data) (alignedLengthPT data n) off mem).2
        else (next (alignedAddress data) (alignedLengthPT data n) off mem).2
      else (next (alignedAddress data) (alignedLengthPT data n) off mem).2)
        (data + i) =
      (next (alignedAddress data) (alignedLengthPT data n) off mem).2
        (alignedAddress data + i)
    rw [if_pos hpos, if_pos hrnd,
      uCast_eq _ (le_of_lt hpos) (by omega)]
    exact copyLoop_read data (alignedAddress data) hdlt _ _ i hi
  · intro hcase
    rw [pread_eq_run next mem data n off (Nat.not_lt.mpr hn)]
    show (if 0 < (next (alignedAddress data) (alignedLengthPT data n) off mem).1 then
        if roundingOffset data ≠ 0 then
          copyLoop data (alignedAddress data)
            (uCast (next (alignedAddress data) (alignedLengthPT data n) off mem).1)
            (next (alignedAddress data) (alignedLengthPT data n) off mem).2
        else (next (alignedAddress data) (alignedLengthPT data n) off mem).2
      else (next (alignedAddress data) (alignedLengthPT data n) off mem).2) =
      (next (alignedAddress data) (alignedLengthPT data n) off mem).2
    rcases hcase with hnp | hr0
    · rw [if_neg hnp]
    · by_cases hpos : 0 < (next (alignedAddress data) (alignedLengthPT data n) off mem).1
      · rw [if_pos hpos, if_neg (fun hne => hne hr0)]
      · rw [if_neg hpos]
  · intro i hoff hres hopen hrnd hpos hcle hi
    have hdlt : data < alignedAddress data := by omega
    rw [pread_sa_eq_run env mem data n off (by omega) (Nat.not_lt.mpr hn)
      (by omega) (by omega)]
    show writeMem
      (if roundingOffset data ≠ 0 then
        copyLoop data (alignedAddress data)
          (uCast (env.read (alignedAddress data) (alignedLengthSA data n) mem).1)
          (env.read (alignedAddress data) (alignedLengthSA data n) mem).2
       else (env.read (alignedAddress data) (alignedLengthSA data n) mem).2)
      (termAddr data (env.read (alignedAddress data) (alignedLengthSA data n) mem).1)
      0 (data + i) =
      (env.read (alignedAddress data) (alignedLengthSA data n) mem).2
        (alignedAddress data + i)
    have hterm : termAddr data
        (env.read (alignedAddress data) (alignedLengthSA data n) mem).1 =
        data + (env.read (alignedAddress data) (alignedLengthSA data n) mem).1.toNat :=
      termAddr_eq data _ (le_of_lt hpos) (by omega)
    unfold writeMem
    rw [hterm, if_neg (by omega), if_pos hrnd,
      uCast_eq _ (le_of_lt hpos) (by omega)]
    exact copyLoop_read data (alignedAddress data) hdlt _ _ i hi

/-- Claim C1 witness: in both variants a one-byte read into an unaligned
buffer leaves the received byte 42 at destination index 0. -/
theorem claim_C1_witness :
    (rdirect_pread nextW mem0 1 1024 0).mem 1 = 42 ∧
    (rdirect_pread_sa envWr mem0 1 1024 0).mem 1 = 42 :=
  have h := claim_C1_amended nextW envWr mem0 1 1024 0 (by decide) (by decide)
  ⟨(h.1 0 (by decide) (by decide) (by decide) (by decide)).trans (by decide),
   (h.2.2 0 (by decide) (by decide) (by decide) (by decide) (by decide)
     (by decide) (by decide)).trans (by decide)⟩

end VfsRdirect
